import Mathlib

/-!
A shallow embedding of the list-view codec logic of `asgi_admin`
(`src/asgi_admin/views.py`), together with proofs about the pagination
codec, the sorting codec, the query filter decoding, the view tree,
and the edit endpoint.

Python strings are modelled as lists of characters (`PyStr`), Python
dicts keyed by strings as association lists (`setKey` models the update
performed by a dict literal merge, replacing the value of an existing
key in place and appending a fresh key at the end, exactly like a
Python dict), and Python exceptions as an explicit `Except` error
channel (`PyError`).
-/

namespace AsgiAdmin

/-- Python strings, modelled as lists of characters. -/
abbrev PyStr := List Char

/-- The whitespace characters removed by Python `str.strip()`. -/
def pyIsSpace (c : Char) : Bool :=
  c = ' ' || c = '\t' || c = '\n' || c = '\r' || c = '\x0b' || c = '\x0c'

/-- Python `str.strip()`: remove leading and trailing whitespace. -/
def pyStrip (s : PyStr) : PyStr :=
  ((s.dropWhile pyIsSpace).reverse.dropWhile pyIsSpace).reverse

/-- Dict lookup on an association list (Python `d.get(key)`). -/
def lookupKey {α : Type} : List (PyStr × α) → PyStr → Option α
  | [], _ => none
  | (k, v) :: rest, key => if k = key then some v else lookupKey rest key

/-- Whether a key is present (Python `key in d`). -/
def containsKey {α : Type} (l : List (PyStr × α)) (key : PyStr) : Bool :=
  (lookupKey l key).isSome

/-- Dict update (Python `d[key] = v`, or a dict literal merge): the value of
an existing key is replaced in place, a fresh key is appended at the end. -/
def setKey {α : Type} : List (PyStr × α) → PyStr → α → List (PyStr × α)
  | [], key, v => [(key, v)]
  | (k, w) :: rest, key, v =>
      if k = key then (k, v) :: rest else (k, w) :: setKey rest key v

/-- The query parameters of a request, as read by `request.query_params`:
an ordered mapping from parameter name to string value. -/
abbrev QueryParams := List (PyStr × PyStr)

/-- Python exceptions relevant to this module. `ValueError` is raised by
`int()` on a malformed literal, `KeyError` by a dict subscript on a missing
key; `httpError` models `ASGIAdminHTTPException` from
`src/asgi_admin/exceptions.py`, the only exception class of the project
that carries an HTTP status code. -/
inductive PyError where
  | valueError : PyError
  | keyError : PyError
  | httpError : Int → PyError
deriving DecidableEq

/-- Whether an exception signals a 4xx-class client error: only
`ASGIAdminHTTPException` carries a status code; plain `ValueError` and
`KeyError` do not. -/
def PyError.isClientError : PyError → Bool
  | .httpError c => 400 ≤ c && c < 500
  | _ => false

def offsetKey : PyStr := "offset".toList
def limitKey : PyStr := "limit".toList
def sortingKey : PyStr := "sorting".toList
def queryKey : PyStr := "query".toList

/-! ### Dict lemmas -/

theorem lookupKey_setKey_self {α : Type} (l : List (PyStr × α)) (k : PyStr) (v : α) :
    lookupKey (setKey l k v) k = some v := by
  induction l with
  | nil => simp [setKey, lookupKey]
  | cons hd tl ih =>
    obtain ⟨k', w⟩ := hd
    by_cases h : k' = k
    · simp [setKey, h, lookupKey]
    · simp [setKey, h, lookupKey, ih]

theorem lookupKey_setKey_ne {α : Type} (l : List (PyStr × α)) (k k' : PyStr) (v : α)
    (h : k' ≠ k) : lookupKey (setKey l k v) k' = lookupKey l k' := by
  induction l with
  | nil =>
    simp only [setKey, lookupKey]
    rw [if_neg fun hh => h hh.symm]
  | cons hd tl ih =>
    obtain ⟨k₀, w⟩ := hd
    by_cases h0 : k₀ = k
    · subst h0
      simp only [setKey, if_pos rfl, lookupKey]
      rw [if_neg fun hh => h hh.symm, if_neg fun hh => h hh.symm]
    · simp only [setKey, if_neg h0, lookupKey]
      by_cases h1 : k₀ = k'
      · simp [h1]
      · simp [h1, ih]

theorem mem_setKey {α : Type} (l : List (PyStr × α)) (k : PyStr) (v : α) :
    ∀ x ∈ setKey l k v, x ∈ l ∨ x = (k, v) := by
  induction l with
  | nil =>
    intro x hx
    simp only [setKey, List.mem_singleton] at hx
    exact Or.inr hx
  | cons hd tl ih =>
    obtain ⟨k₀, w⟩ := hd
    intro x hx
    by_cases h0 : k₀ = k
    · subst h0
      simp only [setKey, eq_self_iff_true, if_true, List.mem_cons] at hx
      rcases hx with hxa | hxb
      · exact Or.inr hxa
      · exact Or.inl (List.mem_cons_of_mem _ hxb)
    · simp only [setKey, if_neg h0, List.mem_cons] at hx
      rcases hx with hxa | hxb
      · exact Or.inl (by simp [hxa])
      · rcases ih x hxb with h | h
        · exact Or.inl (List.mem_cons_of_mem _ h)
        · exact Or.inr h

/-! ### The query text filter: `ModelViewList._get_query_input` -/

/-- `ModelViewList._get_query_input` (views.py): read the `query` parameter;
if present return it stripped of surrounding whitespace, otherwise `None`. -/
def getQueryInput (params : QueryParams) : Option PyStr :=
  match lookupKey params queryKey with
  | some q => some (pyStrip q)
  | none => none

/-! ### The view tree: `ViewBase.add_child`, `ViewBase.get_view`,
`ViewBase.is_nested` -/

/-- A child entry of a view node, as far as `add_child` / `get_view` are
concerned: its sibling-distinguishing `name`. -/
structure ChildView where
  name : PyStr
deriving DecidableEq

/-- `ViewBase.add_child` (views.py): set the child's parent and append it to
`self.children`, unconditionally. -/
def addChild (children : List ChildView) (child : ChildView) : List ChildView :=
  children ++ [child]

/-- `ViewBase.get_view` (views.py): return the first child with the given
name, or `None`. -/
def getView (children : List ChildView) (n : PyStr) : Option ChildView :=
  children.find? (fun c => decide (c.name = n))

/-- A view node as seen by `ViewBase.is_nested`: its name and its parent
chain. `root n` is a node whose `_parent` is `None`; `child n p` is a node
whose `_parent` is the node `p`. -/
inductive PyView where
  | root : PyStr → PyView
  | child : PyStr → PyView → PyView
deriving DecidableEq

/-- The `parent` property of a view node. -/
def PyView.parent : PyView → Option PyView
  | .root _ => none
  | .child _ p => some p

/-- `ViewBase.is_nested` (views.py): `False` when the node has no parent,
`True` when the node equals the queried view, else recurse on the parent. -/
def isNested : PyView → PyView → Bool
  | .root _, _ => false
  | .child n p, w => if PyView.child n p = w then true else isNested p w

/-- The chain of a node and all its ancestors (the node itself included). -/
def ancestorsSelf : PyView → List PyView
  | .root n => [.root n]
  | .child n p => .child n p :: ancestorsSelf p

/-! ### The edit endpoint: `ModelViewEdit.model_endpoint` -/

/-- Observable outcome of `ModelViewEdit.model_endpoint`: the response
status code and whether `repository.update` was called. -/
structure EditOutcome where
  statusCode : Int
  updateCalled : Bool
deriving DecidableEq

/-- `ModelViewEdit._async_validate` (views.py): run every registered async
validator (no short-circuit) and return the conjunction of their results.
Each validator is represented by its boolean result. -/
def asyncValidate (validatorResults : List Bool) : Bool :=
  validatorResults.foldl (fun valid r => if r then valid else false) true

/-- `ModelViewEdit.model_endpoint` (views.py), after the item was found:
on POST, if `form.validate()` and then (short-circuit `and`) all async
validators succeed, call `repository.update` and respond 200; otherwise do
not update and respond 400. On GET, respond 200 without updating. -/
def editModelEndpoint (method : PyStr) (formValid : Bool)
    (validatorResults : List Bool) : EditOutcome :=
  if method = "POST".toList then
    if formValid && asyncValidate validatorResults then
      { statusCode := 200, updateCalled := true }
    else
      { statusCode := 400, updateCalled := false }
  else
    { statusCode := 200, updateCalled := false }

/-! ### Integer printing, as performed by Python `str()` inside
`urllib.parse.urlencode` -/

/-- The decimal digits of `n`, least significant first (empty for `0`). -/
def natToRevDigits (n : Nat) : List Char :=
  if h : n = 0 then []
  else Char.ofNat (48 + n % 10) :: natToRevDigits (n / 10)
termination_by n
decreasing_by exact Nat.div_lt_self (Nat.pos_of_ne_zero h) (by norm_num)

/-- Python `str()` on a non-negative integer. -/
def pyStrNat (n : Nat) : PyStr :=
  if n = 0 then ['0'] else (natToRevDigits n).reverse

/-- Python `str()` on an integer: decimal digits, with a leading `-` for a
negative value. -/
def pyStrInt : Int → PyStr
  | .ofNat n => pyStrNat n
  | .negSucc n => '-' :: pyStrNat (n + 1)

/-! ### Integer parsing, as performed by Python `int()` -/

/-- ASCII decimal digit test. -/
def isAsciiDigit (c : Char) : Bool := '0' ≤ c && c ≤ '9'

/-- The numeric value of an ASCII digit. -/
def digitVal (c : Char) : Nat := c.toNat - 48

/-- The value of a digit string, most significant digit first. -/
def digitsValue (cs : List Char) : Nat :=
  cs.foldl (fun a c => a * 10 + digitVal c) 0

/-- No two adjacent underscores. -/
def noDoubleUnderscore : List Char → Bool
  | [] => true
  | [_] => true
  | a :: b :: rest =>
      !(a = '_' && b = '_') && noDoubleUnderscore (b :: rest)

/-- Whether a character list is a well-formed body of a Python integer
literal: nonempty, first and last characters are digits, every character is
a digit or an underscore, and no two underscores are adjacent (Python
allows single underscores between digits). -/
def pyIntBodyValid (cs : List Char) : Bool :=
  match cs with
  | [] => false
  | c :: rest =>
      isAsciiDigit c && isAsciiDigit ((c :: rest).getLast (by simp))
        && (c :: rest).all (fun d => isAsciiDigit d || d = '_')
        && noDoubleUnderscore (c :: rest)

/-- The value of a well-formed literal body (underscores removed);
`none` on a malformed body. -/
def pyParseIntBody (cs : List Char) : Option Nat :=
  if pyIntBodyValid cs then
    some (digitsValue (cs.filter (fun c => !(c = '_'))))
  else none

/-- Python `int()` on an already-stripped string: an optional sign followed
by a digit sequence; anything else raises `ValueError` (modelled as
`none`). -/
def pyParseIntCore : List Char → Option Int
  | [] => none
  | c :: rest =>
      if c = '-' then (pyParseIntBody rest).map (fun m => -(m : Int))
      else if c = '+' then (pyParseIntBody rest).map (fun m => (m : Int))
      else (pyParseIntBody (c :: rest)).map (fun m => (m : Int))

/-- Python `int(s)` on a string: surrounding whitespace is ignored. -/
def pyParseInt (s : PyStr) : Option Int := pyParseIntCore (pyStrip s)

/-! ### Round trip of integer printing and parsing -/

/-- The printed digit of `d < 10` is an ASCII digit with value `d`. -/
theorem digit_char_spec (d : Nat) (hd : d < 10) :
    isAsciiDigit (Char.ofNat (48 + d)) = true
    ∧ digitVal (Char.ofNat (48 + d)) = d := by
  interval_cases d <;> exact ⟨by decide, by decide⟩

/-- An ASCII digit is none of the special characters of the codecs. -/
theorem digit_not_special (c : Char) (h : isAsciiDigit c = true) :
    c ≠ '-' ∧ c ≠ '+' ∧ c ≠ '_' ∧ pyIsSpace c = false ∧ c ≠ ',' := by
  refine ⟨?_, ?_, ?_, ?_, ?_⟩
  · rintro rfl; exact absurd h (by decide)
  · rintro rfl; exact absurd h (by decide)
  · rintro rfl; exact absurd h (by decide)
  · cases hps : pyIsSpace c
    · rfl
    · simp only [pyIsSpace, Bool.or_eq_true, decide_eq_true_eq] at hps
      rcases hps with ((((rfl | rfl) | rfl) | rfl) | rfl) | rfl <;>
        exact absurd h (by decide)
  · rintro rfl; exact absurd h (by decide)

theorem digitsValue_append (cs : List Char) (c : Char) :
    digitsValue (cs ++ [c]) = digitsValue cs * 10 + digitVal c := by
  simp [digitsValue, List.foldl_append]

theorem natToRevDigits_spec (n : Nat) :
    (∀ c ∈ natToRevDigits n, isAsciiDigit c = true)
    ∧ digitsValue (natToRevDigits n).reverse = n
    ∧ (n ≠ 0 → natToRevDigits n ≠ []) := by
  induction n using Nat.strong_induction_on with
  | _ n ih =>
    by_cases h0 : n = 0
    · subst h0
      rw [natToRevDigits]
      simp [digitsValue]
    · rw [natToRevDigits]
      simp only [dif_neg h0]
      have hdiv : n / 10 < n := Nat.div_lt_self (Nat.pos_of_ne_zero h0) (by norm_num)
      obtain ⟨ihall, ihval, _⟩ := ih (n / 10) hdiv
      have hmod : n % 10 < 10 := Nat.mod_lt _ (by norm_num)
      refine ⟨?_, ?_, fun _ => by simp⟩
      · intro c hc
        rcases List.mem_cons.mp hc with rfl | hc'
        · exact (digit_char_spec (n % 10) hmod).1
        · exact ihall c hc'
      · rw [List.reverse_cons, digitsValue_append, ihval,
          (digit_char_spec (n % 10) hmod).2]
        omega

theorem pyStrNat_spec (n : Nat) :
    (∀ c ∈ pyStrNat n, isAsciiDigit c = true)
    ∧ digitsValue (pyStrNat n) = n
    ∧ pyStrNat n ≠ [] := by
  by_cases h0 : n = 0
  · subst h0
    refine ⟨?_, by decide, by decide⟩
    intro c hc
    simp only [pyStrNat, eq_self_iff_true, if_true, List.mem_singleton] at hc
    subst hc; decide
  · obtain ⟨hall, hval, hne⟩ := natToRevDigits_spec n
    unfold pyStrNat
    rw [if_neg h0]
    refine ⟨fun c hc => hall c (List.mem_reverse.mp hc), hval, ?_⟩
    intro hnil
    exact hne h0 (List.reverse_eq_nil_iff.mp hnil)

theorem dropWhile_eq_self_of_none (p : Char → Bool) (l : List Char)
    (h : ∀ c ∈ l, p c = false) : l.dropWhile p = l := by
  cases l with
  | nil => rfl
  | cons c rest => simp [List.dropWhile_cons, h c (by simp)]

theorem pyStrip_eq_self (l : PyStr) (h : ∀ c ∈ l, pyIsSpace c = false) :
    pyStrip l = l := by
  unfold pyStrip
  rw [dropWhile_eq_self_of_none _ _ h,
    dropWhile_eq_self_of_none _ _ (fun c hc => h c (List.mem_reverse.mp hc)),
    List.reverse_reverse]

theorem noDoubleUnderscore_of_digits (l : List Char) :
    (∀ c ∈ l, isAsciiDigit c = true) → noDoubleUnderscore l = true := by
  induction l with
  | nil => intro _; rfl
  | cons a tl ih =>
    intro h
    cases tl with
    | nil => rfl
    | cons b rest =>
      have ha : a ≠ '_' := (digit_not_special a (h a (by simp))).2.2.1
      have htl := ih (fun c hc => h c (List.mem_cons_of_mem _ hc))
      simp only [noDoubleUnderscore, Bool.and_eq_true, Bool.not_eq_true',
        Bool.and_eq_false_iff, decide_eq_false_iff_not]
      exact ⟨Or.inl ha, htl⟩

theorem pyIntBodyValid_of_digits (cs : List Char) (hne : cs ≠ [])
    (hall : ∀ c ∈ cs, isAsciiDigit c = true) : pyIntBodyValid cs = true := by
  match cs, hne with
  | c :: rest, _ =>
    simp only [pyIntBodyValid, Bool.and_eq_true]
    refine ⟨⟨⟨hall c (by simp), hall _ (List.getLast_mem _)⟩, ?_⟩, ?_⟩
    · rw [List.all_eq_true]
      intro d hd
      simp [hall d hd]
    · exact noDoubleUnderscore_of_digits _ hall

theorem filter_not_underscore_of_digits (cs : List Char)
    (hall : ∀ c ∈ cs, isAsciiDigit c = true) :
    cs.filter (fun c => !(c = '_')) = cs := by
  induction cs with
  | nil => rfl
  | cons c rest ih =>
    have hc : c ≠ '_' := (digit_not_special c (hall c (by simp))).2.2.1
    simp only [List.filter_cons]
    rw [if_pos (by simpa using hc)]
    rw [ih (fun d hd => hall d (List.mem_cons_of_mem _ hd))]

theorem pyParseIntBody_pyStrNat (n : Nat) :
    pyParseIntBody (pyStrNat n) = some n := by
  obtain ⟨hall, hval, hne⟩ := pyStrNat_spec n
  unfold pyParseIntBody
  rw [if_pos (pyIntBodyValid_of_digits _ hne hall)]
  rw [filter_not_underscore_of_digits _ hall, hval]

/-- Printing an integer with Python `str()` and parsing it back with
Python `int()` returns the original integer. -/
theorem pyParseInt_pyStrInt (i : Int) : pyParseInt (pyStrInt i) = some i := by
  cases i with
  | ofNat n =>
    obtain ⟨hall, hval, hne⟩ := pyStrNat_spec n
    have hstrip : pyStrip (pyStrNat n) = pyStrNat n :=
      pyStrip_eq_self _ (fun c hc => (digit_not_special c (hall c hc)).2.2.2.1)
    obtain ⟨c, rest, hcr⟩ : ∃ c rest, pyStrNat n = c :: rest := by
      cases hh : pyStrNat n with
      | nil => exact absurd hh hne
      | cons c rest => exact ⟨c, rest, rfl⟩
    have hspec := digit_not_special c (hall c (by rw [hcr]; simp))
    show pyParseInt (pyStrNat n) = some (Int.ofNat n)
    unfold pyParseInt
    rw [hstrip, hcr]
    simp only [pyParseIntCore]
    rw [if_neg (by simpa using hspec.1), if_neg (by simpa using hspec.2.1)]
    rw [← hcr, pyParseIntBody_pyStrNat]
    rfl
  | negSucc n =>
    obtain ⟨hall, hval, hne⟩ := pyStrNat_spec (n + 1)
    have hstrip : pyStrip ('-' :: pyStrNat (n + 1)) = '-' :: pyStrNat (n + 1) := by
      apply pyStrip_eq_self
      intro c hc
      rcases List.mem_cons.mp hc with rfl | hc'
      · decide
      · exact (digit_not_special c (hall c hc')).2.2.2.1
    show pyParseInt ('-' :: pyStrNat (n + 1)) = some (Int.negSucc n)
    unfold pyParseInt
    rw [hstrip]
    have hcore : pyParseIntCore ('-' :: pyStrNat (n + 1))
        = (pyParseIntBody (pyStrNat (n + 1))).map (fun m => -(m : Int)) := by
      simp [pyParseIntCore]
    rw [hcore, pyParseIntBody_pyStrNat]
    simp [Int.negSucc_eq]

/-! ### The pagination decoder: `ModelViewList._get_pagination_input` -/

/-- `int(request.query_params.get(key, dflt))`: when the parameter is
absent the integer default is used as is; when present, `int()` parses it
and raises `ValueError` on a malformed literal. -/
def parseIntParam (params : QueryParams) (key : PyStr) (dflt : Int) :
    Except PyError Int :=
  match lookupKey params key with
  | none => .ok dflt
  | some s =>
      match pyParseInt s with
      | some i => .ok i
      | none => .error PyError.valueError

/-- `ModelViewList._get_pagination_input` (views.py): parse `offset`
(default 0) then `limit` (default `self.default_limit`); a `ValueError`
from `int()` propagates — no code of the project catches it. -/
def getPaginationInput (params : QueryParams) (defaultLimit : Int) :
    Except PyError (Int × Int) :=
  match parseIntParam params offsetKey 0 with
  | .error e => .error e
  | .ok offset =>
      match parseIntParam params limitKey defaultLimit with
      | .error e => .error e
      | .ok limit => .ok (offset, limit)

/-! ### The pagination encoder: `ModelViewList._get_pagination_output` -/

/-- The `PaginationOutput` dict built by the list view. The next and
previous routes are represented by the query-parameter mapping each link
carries (the URL prefix and the percent-encoding of `urlencode` are the
routing collaborator's inverse pair and are left abstract). -/
structure PaginationOutput where
  offset : Int
  limit : Int
  total : Int
  range : Int × Int
  next_route : Option QueryParams
  previous_route : Option QueryParams
deriving DecidableEq

/-- `ModelViewList._get_pagination_output` (views.py): the next link carries
the current query parameters with `offset` replaced by `offset + limit` and
is present iff `offset + limit < total`; the previous link replaces `offset`
by `offset - limit` and is present iff `offset - limit >= 0`; the displayed
range is `(offset, min (offset + limit) total)`. -/
def getPaginationOutput (params : QueryParams) (offset limit total : Int) :
    PaginationOutput :=
  let nextOffset := offset + limit
  let nextParams := setKey params offsetKey (pyStrInt nextOffset)
  let nextRoute := if nextOffset < total then some nextParams else none
  let previousOffset := offset - limit
  let previousParams := setKey params offsetKey (pyStrInt previousOffset)
  let previousRoute := if previousOffset ≥ 0 then some previousParams else none
  { offset := offset
    limit := limit
    total := total
    range := (offset, min (offset + limit) total)
    next_route := nextRoute
    previous_route := previousRoute }

/-! ### Claim theorems (view tree, query filter, edit endpoint,
pagination) -/

/-- C4 (amended): a present but malformed `offset` or `limit` makes
`_get_pagination_input` raise `ValueError` — an exception that carries no
HTTP status and is caught nowhere, so it surfaces as an unhandled server
error rather than a 4xx-class client error; the default is not silently
substituted. -/
theorem pagination_input_malformed_raises (params : QueryParams) (d : Int)
    (h : (∃ s, lookupKey params offsetKey = some s ∧ pyParseInt s = none)
       ∨ (∃ s, lookupKey params limitKey = some s ∧ pyParseInt s = none)) :
    getPaginationInput params d = .error PyError.valueError
    ∧ PyError.isClientError PyError.valueError = false := by
  refine ⟨?_, rfl⟩
  rcases h with ⟨s, hs, hp⟩ | ⟨s, hs, hp⟩
  · simp [getPaginationInput, parseIntParam, hs, hp]
  · cases hoffp : parseIntParam params offsetKey 0 with
    | error e =>
      have he : e = PyError.valueError := by
        unfold parseIntParam at hoffp
        cases hL : lookupKey params offsetKey with
        | none => simp [hL] at hoffp
        | some s' =>
          simp only [hL] at hoffp
          cases hp' : pyParseInt s' with
          | some i => simp [hp'] at hoffp
          | none =>
            simp [hp'] at hoffp
            exact hoffp.symm
      subst he
      simp [getPaginationInput, hoffp]
    | ok off =>
      unfold getPaginationInput
      rw [hoffp]
      simp [parseIntParam, hs, hp]

/-- Witness for `pagination_input_malformed_raises`: a request with
`offset=abc`. -/
theorem pagination_input_malformed_raises_witness :
    getPaginationInput [(offsetKey, "abc".toList)] 7 = .error PyError.valueError
    ∧ PyError.isClientError PyError.valueError = false :=
  pagination_input_malformed_raises [(offsetKey, "abc".toList)] 7
    (Or.inl ⟨"abc".toList, by decide, by decide⟩)

/-- C4 counterexample: on `offset=abc` the decode raises a plain
`ValueError`, which is not a 4xx-class signal (only
`ASGIAdminHTTPException` carries a status code, and nothing converts a
`ValueError`), contradicting the claim that a client error distinct from
the absent case is signalled. -/
theorem pagination_input_malformed_counterexample :
    getPaginationInput [(offsetKey, "abc".toList)] 10 = .error PyError.valueError
    ∧ PyError.isClientError PyError.valueError = false :=
  ⟨rfl, rfl⟩

theorem getPaginationInput_ok_elim (params : QueryParams) (d off lim : Int)
    (h : getPaginationInput params d = .ok (off, lim)) :
    parseIntParam params offsetKey 0 = .ok off
    ∧ parseIntParam params limitKey d = .ok lim := by
  unfold getPaginationInput at h
  cases h1 : parseIntParam params offsetKey 0 with
  | error e => rw [h1] at h; cases h
  | ok o =>
    rw [h1] at h
    cases h2 : parseIntParam params limitKey d with
    | error e => rw [h2] at h; cases h
    | ok l =>
      rw [h2] at h
      have hol : o = off ∧ l = lim := by
        injection h with h'
        exact ⟨congrArg Prod.fst h', congrArg Prod.snd h'⟩
      exact ⟨by rw [hol.1], by rw [hol.2]⟩

/-- C5: when the next link is present, decoding its query parameters
yields `offset + limit` as the new offset and the same limit, and every
query parameter other than `offset` is carried over unchanged. -/
theorem pagination_next_roundtrip (params : QueryParams) (d total off lim : Int)
    (hdec : getPaginationInput params d = .ok (off, lim))
    (hnext : off + lim < total) :
    (getPaginationOutput params off lim total).next_route
      = some (setKey params offsetKey (pyStrInt (off + lim)))
    ∧ getPaginationInput (setKey params offsetKey (pyStrInt (off + lim))) d
      = .ok (off + lim, lim)
    ∧ ∀ k, k ≠ offsetKey →
        lookupKey (setKey params offsetKey (pyStrInt (off + lim))) k
          = lookupKey params k := by
  obtain ⟨hoffp, hlimp⟩ := getPaginationInput_ok_elim params d off lim hdec
  refine ⟨by simp [getPaginationOutput, hnext], ?_, ?_⟩
  · have h1 : parseIntParam (setKey params offsetKey (pyStrInt (off + lim)))
        offsetKey 0 = .ok (off + lim) := by
      unfold parseIntParam
      rw [lookupKey_setKey_self]
      simp [pyParseInt_pyStrInt]
    have h2 : parseIntParam (setKey params offsetKey (pyStrInt (off + lim)))
        limitKey d = .ok lim := by
      unfold parseIntParam
      rw [lookupKey_setKey_ne _ _ _ _ (by decide)]
      unfold parseIntParam at hlimp
      exact hlimp
    unfold getPaginationInput
    rw [h1, h2]
  · intro k hk
    exact lookupKey_setKey_ne _ _ _ _ hk

/-- Witness for `pagination_next_roundtrip` at `offset=0`, `limit=5`,
`total=20` with a `sorting` parameter carried along. -/
theorem pagination_next_roundtrip_witness :
    (getPaginationOutput [(offsetKey, "0".toList), (limitKey, "5".toList),
        (sortingKey, "label".toList)] 0 5 20).next_route
      = some (setKey [(offsetKey, "0".toList), (limitKey, "5".toList),
          (sortingKey, "label".toList)] offsetKey (pyStrInt (0 + 5)))
    ∧ getPaginationInput (setKey [(offsetKey, "0".toList),
          (limitKey, "5".toList), (sortingKey, "label".toList)] offsetKey
          (pyStrInt (0 + 5))) 10
      = .ok (0 + 5, 5)
    ∧ ∀ k, k ≠ offsetKey →
        lookupKey (setKey [(offsetKey, "0".toList), (limitKey, "5".toList),
            (sortingKey, "label".toList)] offsetKey (pyStrInt (0 + 5))) k
          = lookupKey [(offsetKey, "0".toList), (limitKey, "5".toList),
              (sortingKey, "label".toList)] k :=
  pagination_next_roundtrip
    [(offsetKey, "0".toList), (limitKey, "5".toList),
      (sortingKey, "label".toList)] 10 20 0 5 rfl (by decide)

/-- C2: for every non-negative offset and limit and every total, the
pagination output has a next link present iff `offset + limit < total`, a
previous link present iff `offset - limit >= 0`, and its displayed range
equals `(offset, min (offset + limit) total)`. -/
theorem pagination_output_spec (params : QueryParams) (offset limit total : Int)
    (hoff : 0 ≤ offset) (hlim : 0 ≤ limit) :
    ((getPaginationOutput params offset limit total).next_route.isSome = true
       ↔ offset + limit < total)
    ∧ ((getPaginationOutput params offset limit total).previous_route.isSome = true
       ↔ 0 ≤ offset - limit)
    ∧ (getPaginationOutput params offset limit total).range
       = (offset, min (offset + limit) total) := by
  refine ⟨?_, ?_, rfl⟩
  · by_cases h : offset + limit < total <;> simp [getPaginationOutput, h]
  · by_cases h : offset - limit ≥ 0 <;> simp [getPaginationOutput, h]

/-- Witness for `pagination_output_spec` at `offset = 3`, `limit = 3`,
`total = 10`. -/
theorem pagination_output_spec_witness :
    ((getPaginationOutput [] 3 3 10).next_route.isSome = true
       ↔ (3 : Int) + 3 < 10)
    ∧ ((getPaginationOutput [] 3 3 10).previous_route.isSome = true
       ↔ (0 : Int) ≤ 3 - 3)
    ∧ (getPaginationOutput [] 3 3 10).range = (3, min ((3 : Int) + 3) 10) :=
  pagination_output_spec [] 3 3 10 (by norm_num) (by norm_num)

/-- C6 (amended): `_get_query_input` returns the trimmed text whenever the
`query` parameter is present — even when trimming leaves the empty string,
in which case it returns the empty string rather than `None`; it returns
`None` only when the parameter is absent. -/
theorem query_input_trims_when_present (params : QueryParams) (q : PyStr)
    (h : lookupKey params queryKey = some q) :
    getQueryInput params = some (pyStrip q) ∧ getQueryInput params ≠ none := by
  refine ⟨by simp [getQueryInput, h], by simp [getQueryInput, h]⟩

/-- Witness for `query_input_trims_when_present`. -/
theorem query_input_trims_when_present_witness :
    getQueryInput [(queryKey, " hi ".toList)] = some (pyStrip " hi ".toList)
    ∧ getQueryInput [(queryKey, " hi ".toList)] ≠ none :=
  query_input_trims_when_present [(queryKey, " hi ".toList)] (" hi ".toList)
    (by decide)

/-- C6 counterexample: for a present but whitespace-only `query` parameter,
`_get_query_input` returns the empty string, not `None` — the claim says an
empty-after-trimming value yields `None`. -/
theorem query_input_whitespace_counterexample :
    getQueryInput [(queryKey, "  ".toList)] = some []
    ∧ getQueryInput [(queryKey, "  ".toList)] ≠ none := by
  decide

/-- C7 (amended): `add_child` performs no duplicate-name detection: even
when a sibling with the same name is already present, the child is appended
unconditionally — no error is raised at tree-assembly time — and
`get_view` keeps resolving that name to the first, pre-existing child. -/
theorem add_child_no_duplicate_check (children : List ChildView)
    (c c' : ChildView) (hmem : c' ∈ children) (hname : c'.name = c.name) :
    addChild children c = children ++ [c]
    ∧ getView (addChild children c) c.name = getView children c.name
    ∧ getView (addChild children c) c.name ≠ none := by
  have hfound : ∀ l : List ChildView, (∃ x ∈ l, x.name = c.name) →
      getView (l ++ [c]) c.name = getView l c.name
      ∧ getView (l ++ [c]) c.name ≠ none := by
    intro l
    induction l with
    | nil => rintro ⟨x, hx, _⟩; cases hx
    | cons hd tl ih =>
      rintro ⟨x, hx, hxname⟩
      by_cases hh : hd.name = c.name
      · constructor
        · simp [getView, List.find?, hh]
        · simp [getView, List.find?, hh]
      · rcases List.mem_cons.mp hx with rfl | hx'
        · exact absurd hxname hh
        · have := ih ⟨x, hx', hxname⟩
          constructor
          · simpa [getView, List.find?, hh] using this.1
          · simpa [getView, List.find?, hh] using this.2
  have h2 := hfound children ⟨c', hmem, hname⟩
  exact ⟨rfl, h2.1, h2.2⟩

/-- Witness for `add_child_no_duplicate_check`. -/
theorem add_child_no_duplicate_check_witness :
    addChild [ChildView.mk "a".toList] (ChildView.mk "a".toList)
      = [ChildView.mk "a".toList] ++ [ChildView.mk "a".toList]
    ∧ getView (addChild [ChildView.mk "a".toList] (ChildView.mk "a".toList))
        (ChildView.mk "a".toList).name
      = getView [ChildView.mk "a".toList] (ChildView.mk "a".toList).name
    ∧ getView (addChild [ChildView.mk "a".toList] (ChildView.mk "a".toList))
        (ChildView.mk "a".toList).name ≠ none :=
  add_child_no_duplicate_check [ChildView.mk "a".toList]
    (ChildView.mk "a".toList) (ChildView.mk "a".toList) (by decide) (by decide)

/-- C7 counterexample: adding two children named `a` to the same parent
raises no configuration error — `add_child` returns normally, both
same-named siblings end up in `children`, and `get_view` silently resolves
to the first of them. -/
theorem add_child_duplicate_counterexample :
    addChild [ChildView.mk "a".toList] (ChildView.mk "a".toList)
      = [ChildView.mk "a".toList, ChildView.mk "a".toList]
    ∧ getView [ChildView.mk "a".toList, ChildView.mk "a".toList] "a".toList
      = some (ChildView.mk "a".toList) := by
  decide

/-- Every async validator returning `False` forces `_async_validate` to
return `False`, whatever the other validators return. -/
theorem asyncValidate_false_of_mem (l : List Bool) (h : false ∈ l) :
    asyncValidate l = false := by
  have hfoldl_false : ∀ l' : List Bool,
      List.foldl (fun valid r => if r then valid else false) false l' = false := by
    intro l'
    induction l' with
    | nil => rfl
    | cons hd tl ih => cases hd <;> simpa using ih
  unfold asyncValidate
  induction l with
  | nil => cases h
  | cons hd tl ih =>
    cases hd
    · simpa using hfoldl_false tl
    · have h' : false ∈ tl := by
        rcases List.mem_cons.mp h with h0 | h0
        · cases h0
        · exact h0
      simpa using ih h'

/-- C9: a POST to the edit view whose form fails synchronous validation or
any registered async validator responds 400 and never calls
`repository.update`. -/
theorem edit_invalid_no_update (formValid : Bool) (validatorResults : List Bool)
    (h : formValid = false ∨ false ∈ validatorResults) :
    editModelEndpoint "POST".toList formValid validatorResults
      = { statusCode := 400, updateCalled := false } := by
  have hand : (formValid && asyncValidate validatorResults) = false := by
    rcases h with h | h
    · simp [h]
    · simp [asyncValidate_false_of_mem validatorResults h]
  simp [editModelEndpoint, hand]

/-- Witness for `edit_invalid_no_update`: a failing async validator. -/
theorem edit_invalid_no_update_witness :
    editModelEndpoint "POST".toList true [true, false]
      = { statusCode := 400, updateCalled := false } :=
  edit_invalid_no_update true [true, false] (Or.inr (by decide))

/-- C10: `is_nested` reports a view only if the queried view lies on the
node's parent-inclusive ancestor chain, and only for nodes that do have a
parent — so a root node (parent `None`) is never nested in anything,
itself included (contrapositive of the first conjunct). -/
theorem is_nested_only_within_ancestors (v w : PyView)
    (h : isNested v w = true) :
    v.parent ≠ none ∧ w ∈ ancestorsSelf v := by
  induction v with
  | root n => simp [isNested] at h
  | child n p ih =>
    refine ⟨by simp [PyView.parent], ?_⟩
    by_cases he : PyView.child n p = w
    · subst he; simp [ancestorsSelf]
    · have h2 : isNested p w = true := by
        simpa [isNested, he] using h
      have h3 := ih h2
      simp only [ancestorsSelf, List.mem_cons]
      exact Or.inr h3.2

/-- Witness for `is_nested_only_within_ancestors`: a child node is nested
in itself. -/
theorem is_nested_only_within_ancestors_witness :
    (PyView.child "a".toList (PyView.root "r".toList)).parent ≠ none
    ∧ PyView.child "a".toList (PyView.root "r".toList)
        ∈ ancestorsSelf (PyView.child "a".toList (PyView.root "r".toList)) :=
  is_nested_only_within_ancestors _ _ (by decide)

/-! ### The sorting codec: `ModelViewList._get_sorting_input` and
`ModelViewList._get_sorting_output` -/

/-- `SortingOrder` from `src/asgi_admin/repository.py`. -/
inductive SortingOrder where
  | ASC : SortingOrder
  | DESC : SortingOrder
deriving DecidableEq

/-- A `ListField` (views.py), as far as the sorting codec observes it: its
label and its `sorting` attribute; `sortable` is `sorting is not None`. -/
structure ListField where
  label : PyStr
  sorting : Option PyStr
deriving DecidableEq

/-- `ListField.sortable` (views.py). -/
def ListField.sortable (f : ListField) : Bool := f.sorting.isSome

/-- The `fields` dict of a `ModelViewList`. -/
abbrev Fields := List (PyStr × ListField)

/-- The decoded sort spec (`SortedFields` in views.py): an ordered mapping
from field key to direction. -/
abbrev SortedFields := List (PyStr × SortingOrder)

/-- Python `s.split(",")`. -/
def splitOnComma : PyStr → List PyStr
  | [] => [[]]
  | c :: rest =>
      match splitOnComma rest with
      | [] => []
      | s :: ss => if c = ',' then [] :: s :: ss else (c :: s) :: ss

/-- Python `",".join(parts)`. -/
def intercalateComma : List PyStr → PyStr
  | [] => []
  | [s] => s
  | s :: rest => s ++ ',' :: intercalateComma rest

/-- Python `token.startswith("-")`. -/
def startsWithDash : PyStr → Bool
  | [] => false
  | c :: _ => c = '-'

/-- The field key of a sort token: a leading `-` is stripped. -/
def sortingKeyOf (tok : PyStr) : PyStr :=
  if startsWithDash tok then tok.drop 1 else tok

/-- The direction of a sort token: a leading `-` marks DESC, otherwise
ASC. -/
def sortingOrderOf (tok : PyStr) : SortingOrder :=
  if startsWithDash tok then SortingOrder.DESC else SortingOrder.ASC

/-- One iteration of the token loop of `_get_sorting_input` (views.py):
tokens whose field key is undeclared or not sortable are skipped;
otherwise `sorting[field_key] = order`. -/
def sortingStep (fields : Fields) (acc : SortedFields) (tok : PyStr) :
    SortedFields :=
  match lookupKey fields (sortingKeyOf tok) with
  | some f =>
      if f.sortable then setKey acc (sortingKeyOf tok) (sortingOrderOf tok)
      else acc
  | none => acc

/-- `ModelViewList._get_sorting_input` (views.py): a missing `sorting`
parameter yields the empty spec; otherwise the parameter is split on `,`
and each token processed by `sortingStep`. Total — it never raises. -/
def getSortingInput (fields : Fields) (sortingParam : Option PyStr) :
    SortedFields :=
  match sortingParam with
  | none => []
  | some p => (splitOnComma p).foldl (sortingStep fields) []

/-- `get_sorting_route` from `ModelViewList._get_sorting_output`
(views.py): the new `sorting` parameter is built from an empty token list;
only the toggled field may contribute a token (`-field` if it was ASC,
nothing if it was DESC, `field` if absent and sortable, nothing if absent
and not sortable); `self.fields[field_key]` raises `KeyError` for an
undeclared key. The returned link is represented by its query-parameter
mapping. -/
def getSortingRoute (fields : Fields) (params : QueryParams)
    (sortedFields : SortedFields) (fieldKey : PyStr) :
    Except PyError QueryParams :=
  match lookupKey sortedFields fieldKey with
  | some ord =>
      .ok (setKey params sortingKey
        (intercalateComma
          (if ord = SortingOrder.ASC then ['-' :: fieldKey] else [])))
  | none =>
      match lookupKey fields fieldKey with
      | none => .error PyError.keyError
      | some f =>
          .ok (setKey params sortingKey
            (intercalateComma (if f.sortable then [fieldKey] else [])))

/-- The sort spec a request decodes to. -/
def decodeSorting (fields : Fields) (params : QueryParams) : SortedFields :=
  getSortingInput fields (lookupKey params sortingKey)

/-- One toggle interaction: decode the current request's sort spec, then
follow the toggle link of `fieldKey`. -/
def toggleSorting (fields : Fields) (params : QueryParams) (fieldKey : PyStr) :
    Except PyError QueryParams :=
  getSortingRoute fields params (decodeSorting fields params) fieldKey

/-! ### Sorting codec lemmas -/

theorem splitOnComma_no_comma (s : PyStr) (h : ',' ∉ s) :
    splitOnComma s = [s] := by
  induction s with
  | nil => rfl
  | cons c rest ih =>
    have hc : c ≠ ',' := fun hc => h (by simp [hc])
    have hrest : ',' ∉ rest := fun hr => h (List.mem_cons_of_mem _ hr)
    simp only [splitOnComma, ih hrest]
    rw [if_neg (by simpa using fun hcc => hc hcc)]

theorem sortingStep_preserves (fields : Fields) (acc : SortedFields)
    (t : PyStr)
    (hacc : ∀ k o, (k, o) ∈ acc →
      ∃ fl, lookupKey fields k = some fl ∧ fl.sortable = true) :
    ∀ k o, (k, o) ∈ sortingStep fields acc t →
      ∃ fl, lookupKey fields k = some fl ∧ fl.sortable = true := by
  intro k o hm
  cases hL : lookupKey fields (sortingKeyOf t) with
  | none =>
    simp only [sortingStep, hL] at hm
    exact hacc k o hm
  | some f =>
    by_cases hsort : f.sortable = true
    · simp only [sortingStep, hL, hsort, if_true] at hm
      rcases mem_setKey acc (sortingKeyOf t) (sortingOrderOf t) (k, o) hm
        with h | h
      · exact hacc k o h
      · have hk : k = sortingKeyOf t := congrArg Prod.fst h
        exact ⟨f, hk ▸ hL, hsort⟩
    · have hsf : f.sortable = false := by
        cases hq : f.sortable
        · rfl
        · exact absurd hq hsort
      simp only [sortingStep, hL, hsf, Bool.false_eq_true, if_false] at hm
      exact hacc k o hm

/-- C3: the decoded sort spec only ever contains declared, sortable field
keys (unknown tokens are silently dropped — `_get_sorting_input` is total
and never raises), and a missing `sorting` parameter yields the empty
spec. The split on `,` and the leading-`-` handling are those of
`splitOnComma`, `sortingKeyOf` and `sortingOrderOf`. -/
theorem sorting_input_spec (fields : Fields) (p : PyStr) (k : PyStr)
    (o : SortingOrder) (hmem : (k, o) ∈ getSortingInput fields (some p)) :
    (∃ fl, lookupKey fields k = some fl ∧ fl.sortable = true)
    ∧ getSortingInput fields none = [] := by
  refine ⟨?_, rfl⟩
  have hinv : ∀ (toks : List PyStr) (acc : SortedFields),
      (∀ k' o', (k', o') ∈ acc →
        ∃ fl, lookupKey fields k' = some fl ∧ fl.sortable = true) →
      ∀ k' o', (k', o') ∈ toks.foldl (sortingStep fields) acc →
        ∃ fl, lookupKey fields k' = some fl ∧ fl.sortable = true := by
    intro toks
    induction toks with
    | nil => intro acc hacc k' o' hm; exact hacc k' o' hm
    | cons t ts ih =>
      intro acc hacc k' o' hm
      exact ih (sortingStep fields acc t)
        (sortingStep_preserves fields acc t hacc) k' o' hm
  unfold getSortingInput at hmem
  exact hinv (splitOnComma p) [] (fun k' o' hm => absurd hm (by simp)) k o hmem

/-- Witness for `sorting_input_spec`: decoding `sorting=-a,zz` against a
field set declaring only a sortable `a` retains `a` as DESC. -/
theorem sorting_input_spec_witness :
    (∃ fl, lookupKey [(['a'], ListField.mk ['a'] (some ['a']))] ['a']
        = some fl ∧ fl.sortable = true)
    ∧ getSortingInput [(['a'], ListField.mk ['a'] (some ['a']))] none = [] :=
  sorting_input_spec [(['a'], ListField.mk ['a'] (some ['a']))]
    "-a,zz".toList ['a'] SortingOrder.DESC (by decide)

/-- C8 (amended): calling `get_sorting_route` on a declared but
non-sortable field that is not currently in the sort spec does not raise:
it silently returns a link whose `sorting` parameter is empty (clearing
the sort order). Only an undeclared field key raises (a `KeyError`). -/
theorem sorting_route_nonsortable_silent (fields : Fields)
    (params : QueryParams) (sorted : SortedFields) (k : PyStr)
    (fl : ListField) (hnot : lookupKey sorted k = none)
    (hfl : lookupKey fields k = some fl) (hns : fl.sortable = false) :
    getSortingRoute fields params sorted k
      = .ok (setKey params sortingKey []) := by
  unfold getSortingRoute
  rw [hnot]
  simp [hfl, hns, intercalateComma]

/-- Witness for `sorting_route_nonsortable_silent`. -/
theorem sorting_route_nonsortable_silent_witness :
    getSortingRoute [(['x'], ListField.mk ['x'] none)] [] [] ['x']
      = .ok (setKey [] sortingKey []) :=
  sorting_route_nonsortable_silent [(['x'], ListField.mk ['x'] none)] [] []
    ['x'] (ListField.mk ['x'] none) rfl rfl rfl

/-- C8 counterexample: toggling the declared non-sortable field `x` does
not raise a precondition violation — `get_sorting_route` returns a link
normally (with an empty `sorting` parameter). -/
theorem sorting_route_nonsortable_counterexample :
    getSortingRoute [(['x'], ListField.mk ['x'] none)] [] [] ['x']
      = .ok [(sortingKey, [])] :=
  rfl

theorem decodeSorting_setKey (fields : Fields) (params : QueryParams)
    (v : PyStr) :
    decodeSorting fields (setKey params sortingKey v)
      = getSortingInput fields (some v) := by
  unfold decodeSorting
  rw [lookupKey_setKey_self]

theorem getSortingInput_single_desc (fields : Fields) (f : PyStr)
    (fl : ListField) (hf : lookupKey fields f = some fl)
    (hsort : fl.sortable = true) (hcomma : ',' ∉ f) :
    getSortingInput fields (some ('-' :: f)) = [(f, SortingOrder.DESC)] := by
  have hnc : ',' ∉ ('-' :: f) := by
    intro h
    rcases List.mem_cons.mp h with h | h
    · cases h
    · exact hcomma h
  show (splitOnComma ('-' :: f)).foldl (sortingStep fields) []
    = [(f, SortingOrder.DESC)]
  rw [splitOnComma_no_comma _ hnc]
  simp [sortingStep, sortingKeyOf, sortingOrderOf, startsWithDash, hf, hsort,
    setKey]

theorem getSortingInput_empty (fields : Fields)
    (hempty : lookupKey fields [] = none) :
    getSortingInput fields (some []) = [] := by
  show (splitOnComma []).foldl (sortingStep fields) [] = []
  simp [splitOnComma, sortingStep, sortingKeyOf, startsWithDash, hempty]

theorem getSortingInput_single_asc (fields : Fields) (f : PyStr)
    (fl : ListField) (hf : lookupKey fields f = some fl)
    (hsort : fl.sortable = true) (hcomma : ',' ∉ f)
    (hdash : startsWithDash f = false) :
    getSortingInput fields (some f) = [(f, SortingOrder.ASC)] := by
  show (splitOnComma f).foldl (sortingStep fields) [] = [(f, SortingOrder.ASC)]
  rw [splitOnComma_no_comma _ hcomma]
  simp [sortingStep, sortingKeyOf, sortingOrderOf, hdash, hf, hsort, setKey]

/-- C1 (amended): starting from any request whose decoded spec has `f`
ascending, toggling `f` three times cycles it ascending → descending →
absent → ascending; but each toggle link's `sorting` parameter contains
only `f`'s token — every other field of the current sort spec is dropped
from it, not re-emitted (visible in the decoded specs being exactly
`[(f, DESC)]`, `[]`, `[(f, ASC)]`). -/
theorem sorting_toggle_cycle_drops_others (fields : Fields)
    (params : QueryParams) (f : PyStr) (fl : ListField)
    (hf : lookupKey fields f = some fl) (hsort : fl.sortable = true)
    (hcomma : ',' ∉ f) (hdash : startsWithDash f = false)
    (hempty : lookupKey fields [] = none)
    (hasc : lookupKey (decodeSorting fields params) f
      = some SortingOrder.ASC) :
    toggleSorting fields params f
      = .ok (setKey params sortingKey ('-' :: f))
    ∧ decodeSorting fields (setKey params sortingKey ('-' :: f))
      = [(f, SortingOrder.DESC)]
    ∧ toggleSorting fields (setKey params sortingKey ('-' :: f)) f
      = .ok (setKey (setKey params sortingKey ('-' :: f)) sortingKey [])
    ∧ decodeSorting fields
        (setKey (setKey params sortingKey ('-' :: f)) sortingKey [])
      = []
    ∧ toggleSorting fields
        (setKey (setKey params sortingKey ('-' :: f)) sortingKey []) f
      = .ok (setKey (setKey (setKey params sortingKey ('-' :: f))
          sortingKey []) sortingKey f)
    ∧ decodeSorting fields (setKey (setKey (setKey params sortingKey
        ('-' :: f)) sortingKey []) sortingKey f)
      = [(f, SortingOrder.ASC)] := by
  have hdec1 : decodeSorting fields (setKey params sortingKey ('-' :: f))
      = [(f, SortingOrder.DESC)] := by
    rw [decodeSorting_setKey]
    exact getSortingInput_single_desc fields f fl hf hsort hcomma
  have hdec2 : decodeSorting fields
      (setKey (setKey params sortingKey ('-' :: f)) sortingKey []) = [] := by
    rw [decodeSorting_setKey]
    exact getSortingInput_empty fields hempty
  have hdec3 : decodeSorting fields (setKey (setKey (setKey params
      sortingKey ('-' :: f)) sortingKey []) sortingKey f)
      = [(f, SortingOrder.ASC)] := by
    rw [decodeSorting_setKey]
    exact getSortingInput_single_asc fields f fl hf hsort hcomma hdash
  refine ⟨?_, hdec1, ?_, hdec2, ?_, hdec3⟩
  · unfold toggleSorting getSortingRoute
    rw [hasc]
    simp [intercalateComma]
  · unfold toggleSorting getSortingRoute
    rw [hdec1]
    simp [lookupKey, intercalateComma]
  · unfold toggleSorting getSortingRoute
    rw [hdec2]
    simp [lookupKey, hf, hsort, intercalateComma]

/-- Witness for `sorting_toggle_cycle_drops_others`: one sortable field
`a`, request `sorting=a`. -/
theorem sorting_toggle_cycle_drops_others_witness :
    toggleSorting [(['a'], ListField.mk ['a'] (some ['a']))]
        [(sortingKey, ['a'])] ['a']
      = .ok (setKey [(sortingKey, ['a'])] sortingKey ['-', 'a'])
    ∧ decodeSorting [(['a'], ListField.mk ['a'] (some ['a']))]
        (setKey [(sortingKey, ['a'])] sortingKey ['-', 'a'])
      = [(['a'], SortingOrder.DESC)]
    ∧ toggleSorting [(['a'], ListField.mk ['a'] (some ['a']))]
        (setKey [(sortingKey, ['a'])] sortingKey ['-', 'a']) ['a']
      = .ok (setKey (setKey [(sortingKey, ['a'])] sortingKey ['-', 'a'])
          sortingKey [])
    ∧ decodeSorting [(['a'], ListField.mk ['a'] (some ['a']))]
        (setKey (setKey [(sortingKey, ['a'])] sortingKey ['-', 'a'])
          sortingKey [])
      = []
    ∧ toggleSorting [(['a'], ListField.mk ['a'] (some ['a']))]
        (setKey (setKey [(sortingKey, ['a'])] sortingKey ['-', 'a'])
          sortingKey []) ['a']
      = .ok (setKey (setKey (setKey [(sortingKey, ['a'])] sortingKey
          ['-', 'a']) sortingKey []) sortingKey ['a'])
    ∧ decodeSorting [(['a'], ListField.mk ['a'] (some ['a']))]
        (setKey (setKey (setKey [(sortingKey, ['a'])] sortingKey
          ['-', 'a']) sortingKey []) sortingKey ['a'])
      = [(['a'], SortingOrder.ASC)] :=
  sorting_toggle_cycle_drops_others
    [(['a'], ListField.mk ['a'] (some ['a']))] [(sortingKey, ['a'])]
    ['a'] (ListField.mk ['a'] (some ['a'])) rfl rfl (by decide) rfl rfl rfl

/-- C1 counterexample: with both `a` and `b` ascending in the current
spec, the toggle link for `a` decodes to a spec that no longer contains
`b` at all — the other field's token is not re-emitted, contradicting the
claim. -/
theorem sorting_toggle_drops_counterexample :
    decodeSorting
        [(['a'], ListField.mk ['a'] (some ['a'])),
          (['b'], ListField.mk ['b'] (some ['b']))]
        [(sortingKey, "a,b".toList)]
      = [(['a'], SortingOrder.ASC), (['b'], SortingOrder.ASC)]
    ∧ toggleSorting
        [(['a'], ListField.mk ['a'] (some ['a'])),
          (['b'], ListField.mk ['b'] (some ['b']))]
        [(sortingKey, "a,b".toList)] ['a']
      = .ok [(sortingKey, ['-', 'a'])]
    ∧ lookupKey (decodeSorting
        [(['a'], ListField.mk ['a'] (some ['a'])),
          (['b'], ListField.mk ['b'] (some ['b']))]
        [(sortingKey, ['-', 'a'])]) ['b']
      = none :=
  ⟨rfl, rfl, rfl⟩

end AsgiAdmin
